import Mathlib

/-!
Shallow embedding of the sdcpy-map core layer computation
(`src/sdcpy_map/layers.py`, together with the alignment helper from
`src/sdcpy_map/datasets.py` and the configuration record from
`src/sdcpy_map/config.py`).

Numeric cells that may be NaN (numpy float64 values) are modelled by `RVal`:
either a finite rational or NaN.  Timestamps are modelled as integers (any
fixed time unit), which preserves order and absolute differences.  The
scale-dependent-correlation engine (`sdcpy.compute_sdc`) is external to the
repository and is modelled as an arbitrary function parameter of the matching
signature: nothing in the core depends on its internals.
-/

unseal Rat.mul Rat.add Rat.inv Rat.sub

/-- A numpy float cell: either a finite value (modelled as a rational) or NaN. -/
inductive RVal where
  | nan : RVal
  | fin : ℚ → RVal
deriving DecidableEq, Repr

namespace RVal

/-- `np.isfinite` on one cell. -/
def isFinite : RVal → Bool
  | nan => false
  | fin _ => true

/-- `np.isnan` / `pd.isna` on one cell. -/
def isNan : RVal → Bool
  | nan => true
  | fin _ => false

end RVal

/-- `SDCMapConfig` (config.py).  Only the fields consumed by the layer
computation are modelled; the time/space subsetting fields are consumed by the
dataset loaders, outside this core. -/
structure SDCMapConfig where
  fragment_size : ℕ
  n_permutations : ℕ
  two_tailed : Bool
  min_lag : ℤ
  max_lag : ℤ
  alpha : ℚ
  top_fraction : ℚ
  peak_date : ℤ
deriving DecidableEq, Repr

/-- One row of the fragment-pair table returned by `sdcpy.compute_sdc`; only
the columns consumed downstream (`start_1`, `lag`, `r`, `p_value`) are
modelled. -/
structure EngineRow where
  start_1 : ℤ
  lag : ℤ
  r : RVal
  p_value : RVal
deriving DecidableEq, Repr

/-- A row of the significance-filtered table: the filter keeps only rows whose
`r` and `p_value` are finite, so those columns are plain rationals here. -/
structure SigRow where
  start_1 : ℤ
  lag : ℤ
  r : ℚ
  p_value : ℚ
deriving DecidableEq, Repr

/-- Lines 76-77 of layers.py: first keep rows with finite `r` and `p_value`
(extracting the now-known-finite rationals), then keep `p_value <= alpha`. -/
def significanceFilter (alpha : ℚ) (sdc : List EngineRow) : List SigRow :=
  let finiteRows := sdc.filterMap fun row =>
    match row.r, row.p_value with
    | RVal.fin r, RVal.fin p => some (SigRow.mk row.start_1 row.lag r p)
    | _, _ => none
  finiteRows.filter fun row => decide (row.p_value ≤ alpha)

/-- The sign label `"pos"` / `"neg"` attached to a candidate group. -/
inductive Sign where
  | pos : Sign
  | neg : Sign
deriving DecidableEq, Repr

/-- A selected row together with its added `driver_rel_start` column
(`start_1 - peak_idx`, layers.py lines 31 and 36). -/
structure SelRow where
  row : SigRow
  driver_rel_start : ℤ
deriving DecidableEq, Repr

/-- Attach the `driver_rel_start` column to every selected row. -/
def addRelStart (peak_idx : ℤ) (rows : List SigRow) : List SelRow :=
  rows.map fun e => SelRow.mk e (e.start_1 - peak_idx)

/-- Descending-by-`r` order used by `DataFrame.nlargest(..., "r")`. -/
def rGE (a b : SigRow) : Prop := b.r ≤ a.r

/-- Ascending-by-`r` order used by `DataFrame.nsmallest(..., "r")`. -/
def rLE (a b : SigRow) : Prop := a.r ≤ b.r

instance : DecidableRel rGE := fun a b => inferInstanceAs (Decidable (b.r ≤ a.r))

instance : DecidableRel rLE := fun a b => inferInstanceAs (Decidable (a.r ≤ b.r))

instance : IsTotal SigRow rGE := ⟨fun a b => le_total b.r a.r⟩

instance : IsTrans SigRow rGE := ⟨fun _ _ _ h1 h2 => le_trans h2 h1⟩

instance : IsTotal SigRow rLE := ⟨fun a b => le_total a.r b.r⟩

instance : IsTrans SigRow rLE := ⟨fun _ _ _ h1 h2 => le_trans h1 h2⟩

/-- `rows.nlargest(n, "r")`: the first `n` rows of the stable descending sort
by `r` (pandas' default keep="first" tie policy = stability of the sort). -/
def nlargestByR (n : ℕ) (rows : List SigRow) : List SigRow :=
  (rows.insertionSort rGE).take n

/-- `rows.nsmallest(n, "r")`: the first `n` rows of the stable ascending sort
by `r`. -/
def nsmallestByR (n : ℕ) (rows : List SigRow) : List SigRow :=
  (rows.insertionSort rLE).take n

/-- `np.mean` over a list of rationals (0 on the empty list; every use in the
pipeline is on a list of length ≥ 2). -/
def meanQ (l : List ℚ) : ℚ := l.sum / l.length

/-- `np.max` on a list (0 on the empty list, which is never reached). -/
def listMaxQ : List ℚ → ℚ
  | [] => 0
  | x :: xs => xs.foldl max x

/-- `np.min` on a list (0 on the empty list, which is never reached). -/
def listMinQ : List ℚ → ℚ
  | [] => 0
  | x :: xs => xs.foldl min x

/-- `abs(item[1]["r"].mean())`: the candidate key used by the final `max` in
`_pick_top_extremes`. -/
def absMeanR (sel : List SelRow) : ℚ := |meanQ (sel.map fun e => e.row.r)|

/-- The arithmetic mean of |r| over a selected group (the "mean absolute r" of
the spec; for a sign-pure group it coincides with `absMeanR`). -/
def meanAbsRSel (sel : List SelRow) : ℚ := meanQ (sel.map fun e => |e.row.r|)

/-- `sdc.loc[sdc["r"] > 0]` (layers.py line 21). -/
def posOf (sdc : List SigRow) : List SigRow :=
  sdc.filter fun row => decide (0 < row.r)

/-- `sdc.loc[sdc["r"] < 0]` (layers.py line 22). -/
def negOf (sdc : List SigRow) : List SigRow :=
  sdc.filter fun row => decide (row.r < 0)

/-- `math.floor(len(group) * top_fraction)` (layers.py lines 24-25).
`Rat.floor` is used for computability; it agrees with `Int.floor`
(`cntOf_eq_intFloor` below). -/
def cntOf (top_fraction : ℚ) (group : List SigRow) : ℤ :=
  Rat.floor ((group.length : ℚ) * top_fraction)

/-- The positive candidate: `pos.nlargest(cpos, "r")` with the
`driver_rel_start` column attached (layers.py lines 30-31). -/
def selPosOf (sdc : List SigRow) (peak_idx : ℤ) (top_fraction : ℚ) : List SelRow :=
  addRelStart peak_idx (nlargestByR (cntOf top_fraction (posOf sdc)).toNat (posOf sdc))

/-- The negative candidate: `neg.nsmallest(cneg, "r")` with the
`driver_rel_start` column attached (layers.py lines 35-36). -/
def selNegOf (sdc : List SigRow) (peak_idx : ℤ) (top_fraction : ℚ) : List SelRow :=
  addRelStart peak_idx (nsmallestByR (cntOf top_fraction (negOf sdc)).toNat (negOf sdc))

/-- `_pick_top_extremes` (layers.py lines 16-46). -/
def pickTopExtremes (sdc : List SigRow) (peak_idx : ℤ) (top_fraction : ℚ) :
    Option (List SelRow × Sign) :=
  let cpos : ℤ := cntOf top_fraction (posOf sdc)
  let cneg : ℤ := cntOf top_fraction (negOf sdc)
  let candidates : List (Sign × List SelRow) :=
    (if 2 ≤ cpos then [(Sign.pos, selPosOf sdc peak_idx top_fraction)] else []) ++
    (if 2 ≤ cneg then [(Sign.neg, selNegOf sdc peak_idx top_fraction)] else [])
  match candidates with
  | [] => none
  | [(sign, sel)] => some (sel, sign)
  | (s1, sel1) :: (s2, sel2) :: _ =>
    -- `max(candidates, key=...)` keeps the first candidate on equal keys.
    if absMeanR sel1 < absMeanR sel2 then some (sel2, s2) else some (sel1, s1)

/-- The eight per-gridpoint summary statistics (all finite when present). -/
structure Summary where
  corr_mean : ℚ
  driver_rel_time_mean : ℚ
  lag_mean : ℚ
  timing_combo : ℚ
  strong_span : ℚ
  strong_start : ℚ
  dominant_sign : ℚ
  n_selected : ℚ
deriving DecidableEq, Repr

/-- The summary dictionary built at layers.py lines 88-101. -/
def mkSummary (selected : List SelRow) (sign : Sign) : Summary :=
  let rel : List ℚ := selected.map fun e => (e.driver_rel_start : ℚ)
  let lag : List ℚ := selected.map fun e => (e.row.lag : ℚ)
  let r : List ℚ := selected.map fun e => e.row.r
  { corr_mean := meanQ r
    driver_rel_time_mean := meanQ rel
    lag_mean := meanQ lag
    timing_combo := meanQ rel + meanQ lag
    strong_span := listMaxQ rel - listMinQ rel
    strong_start := listMinQ rel
    dominant_sign := if sign = Sign.pos then 1 else -1
    n_selected := (selected.length : ℚ) }

/-- The finite entries of a series (the `np.isfinite` mask applied). -/
def finiteVals (l : List RVal) : List ℚ :=
  l.filterMap fun v => match v with | RVal.fin q => some q | RVal.nan => none

/-- `np.sum(np.isfinite(local_vals))`. -/
def finiteCount (l : List RVal) : ℕ := (finiteVals l).length

/-- `np.isnan(vals).any()`. -/
def anyNan (l : List RVal) : Bool := l.any RVal.isNan

/-- The (population) variance of a list of rationals. -/
def nanVarQ (l : List ℚ) : ℚ :=
  ((l.map fun x => (x - meanQ l) ^ 2).sum) / l.length

/-- `np.nanstd(local_vals) == 0`: the standard deviation of the finite entries
is `sqrt` of their variance, so it is 0 exactly when the variance is 0; when
there are no finite entries `nanstd` is NaN and `NaN == 0` is False. -/
def nanstdIsZero (l : List RVal) : Bool :=
  !(finiteVals l).isEmpty && decide (nanVarQ (finiteVals l) = 0)

/-- The external correlation engine `sdcpy.compute_sdc`: driver values, local
values, fragment_size, n_permutations, two_tailed, min_lag, max_lag ↦
fragment-pair table. -/
abbrev EngineFn : Type :=
  List RVal → List RVal → ℕ → ℕ → Bool → ℤ → ℤ → List EngineRow

/-- `_summarize_gridpoint` (layers.py lines 49-101). -/
def summarizeGridpoint (engine : EngineFn) (driver_vals local_vals : List RVal)
    (config : SDCMapConfig) (peak_idx : ℤ) : Option Summary :=
  if finiteCount local_vals < config.fragment_size + 3 then none
  else if nanstdIsZero local_vals then none
  else if anyNan local_vals || anyNan driver_vals then none
  else if (significanceFilter config.alpha
      (engine driver_vals local_vals config.fragment_size config.n_permutations
        config.two_tailed config.min_lag config.max_lag)).isEmpty then none
  else
    match
      pickTopExtremes
        (significanceFilter config.alpha
          (engine driver_vals local_vals config.fragment_size config.n_permutations
            config.two_tailed config.min_lag config.max_lag))
        peak_idx config.top_fraction with
    | none => none
    | some (selected, sign) => some (mkSummary selected sign)

/-- `np.argmin(np.abs(index - peak_date))` with numpy's first-minimum tie
policy, returned as (position, minimum value) on a nonempty list. -/
def argminAbsPair (peak : ℤ) : List ℤ → Option (ℕ × ℤ)
  | [] => none
  | x :: xs =>
    match argminAbsPair peak xs with
    | none => some (0, |x - peak|)
    | some (i, v) => if |x - peak| ≤ v then some (0, |x - peak|) else some (i + 1, v)

/-- The resolved peak-reference position (layers.py line 135). -/
def argminAbs (peak : ℤ) (l : List ℤ) : ℕ :=
  match argminAbsPair peak l with
  | some (i, _) => i
  | none => 0

/-- A driver series: (timestamp, value) pairs (`pd.Series` with a datetime
index). -/
abbrev Driver : Type := List (ℤ × RVal)

/-- `driver.reindex(index)` at one timestamp: the stored value when the
timestamp is present, NaN otherwise. -/
def reindexOne (driver : Driver) (t : ℤ) : RVal :=
  match driver.lookup t with
  | some v => v
  | none => RVal.nan

/-- `align_driver_to_field` (datasets.py lines 317-323). -/
def align_driver_to_field (driver : Driver) (fieldTime : List ℤ) :
    Except String (List RVal) :=
  let aligned := fieldTime.map (reindexOne driver)
  if aligned.any RVal.isNan then
    Except.error "Driver and mapped-variable time indexes do not align."
  else
    Except.ok aligned

/-- The mapped field: a (time, lat, lon) gridded array; `data i j` is the
local time series at gridpoint (i, j), i.e. `mapped_field[:, i, j]`. -/
structure MappedField where
  time : List ℤ
  nlat : ℕ
  nlon : ℕ
  data : ℕ → ℕ → List RVal

/-- One cell of the eight output layers. -/
structure LayerCell where
  corr_mean : RVal
  driver_rel_time_mean : RVal
  lag_mean : RVal
  timing_combo : RVal
  strong_span : RVal
  strong_start : RVal
  dominant_sign : RVal
  n_selected : RVal
deriving DecidableEq, Repr

/-- The all-NaN initial cell (`np.full(..., np.nan)`, layers.py lines 141-150). -/
def nanCell : LayerCell :=
  ⟨RVal.nan, RVal.nan, RVal.nan, RVal.nan, RVal.nan, RVal.nan, RVal.nan, RVal.nan⟩

/-- Writing one gridpoint summary into its cell (layers.py lines 163-164). -/
def cellOfSummary (s : Summary) : LayerCell :=
  ⟨RVal.fin s.corr_mean, RVal.fin s.driver_rel_time_mean, RVal.fin s.lag_mean,
   RVal.fin s.timing_combo, RVal.fin s.strong_span, RVal.fin s.strong_start,
   RVal.fin s.dominant_sign, RVal.fin s.n_selected⟩

/-- `compute_sdcmap_layers` (layers.py lines 104-166).  The nested loop writes
every cell at most once and distinct cells never interact, so the output grid
is modelled as the per-cell function (i, j) ↦ cell. -/
def compute_sdcmap_layers (engine : EngineFn) (driver : Driver)
    (mapped_field : Option MappedField) (config : Option SDCMapConfig)
    (sst_anom : Option MappedField) :
    Except String (ℕ → ℕ → LayerCell) :=
  let mf := match mapped_field with
    | some f => some f
    | none => sst_anom
  match mf with
  | none => Except.error "`mapped_field` must be provided."
  | some field =>
    match config with
    | none => Except.error "`config` must be provided."
    | some cfg =>
      let aligned := field.time.map (reindexOne driver)
      if aligned.any RVal.isNan then
        Except.error "Driver and mapped-variable time coverage do not align."
      else
        let peak_idx : ℤ := (argminAbs cfg.peak_date field.time : ℕ)
        Except.ok fun i j =>
          match summarizeGridpoint engine aligned (field.data i j) cfg peak_idx with
          | none => nanCell
          | some s => cellOfSummary s

/-- A concrete configuration used by the closed witness theorems:
fragment_size 1, no permutations, one-tailed, lag range [0, 0], alpha 1/2,
top_fraction 1/2, peak timestamp 0. -/
def cfg0 : SDCMapConfig := ⟨1, 0, false, 0, 0, mkRat 1 2, mkRat 1 2, 0⟩

/-- A concrete fragment-pair table: four positive-r rows and four
negative-r rows, all significant at alpha = 1/2. -/
def rows0 : List EngineRow :=
  [⟨5, 1, RVal.fin (mkRat 9 10), RVal.fin (mkRat 1 100)⟩,
   ⟨6, 2, RVal.fin (mkRat 8 10), RVal.fin (mkRat 1 100)⟩,
   ⟨7, 1, RVal.fin (mkRat 1 10), RVal.fin (mkRat 1 100)⟩,
   ⟨8, 1, RVal.fin (mkRat 1 10), RVal.fin (mkRat 1 100)⟩,
   ⟨9, 1, RVal.fin (mkRat (-6) 10), RVal.fin (mkRat 1 100)⟩,
   ⟨10, 1, RVal.fin (mkRat (-5) 10), RVal.fin (mkRat 1 100)⟩,
   ⟨11, 1, RVal.fin (mkRat (-1) 10), RVal.fin (mkRat 1 100)⟩,
   ⟨12, 1, RVal.fin (mkRat (-1) 10), RVal.fin (mkRat 1 100)⟩]

/-- A stub correlation engine returning `rows0` for every input. -/
def engine0 : EngineFn := fun _ _ _ _ _ _ _ => rows0

/-- A concrete aligned driver-series value list. -/
def dv0 : List RVal := [RVal.fin 1, RVal.fin 2, RVal.fin 1, RVal.fin 3]

/-- A concrete local series: four finite values, nonzero variance, no NaN. -/
def lv0 : List RVal := [RVal.fin 0, RVal.fin 1, RVal.fin 0, RVal.fin 2]

/-- The significance-filtered table of `rows0` under `cfg0`. -/
def sdc0 : List SigRow := significanceFilter cfg0.alpha rows0


/-- The aligned driver series (timestamp, value) pairs used by the witnesses. -/
def driver0 : Driver := [(0, RVal.fin 1), (1, RVal.fin 2), (2, RVal.fin 1), (3, RVal.fin 3)]

/-- A driver series whose value at timestamp 0 is missing. -/
def driverBad : Driver := [(0, RVal.nan), (1, RVal.fin 2), (2, RVal.fin 1), (3, RVal.fin 3)]

/-- A 4-step, 1 x 1 mapped field whose single gridpoint series is `lv0`. -/
def field0 : MappedField := ⟨[0, 1, 2, 3], 1, 1, fun _ _ => lv0⟩

/-- A local series with a NaN (and only 3 finite values). -/
def lvNaN : List RVal := [RVal.nan, RVal.fin 1, RVal.fin 2, RVal.fin 3]

/-- The summary produced at the witness gridpoint. -/
def summary0 : Summary := ⟨mkRat 17 20, mkRat 11 2, mkRat 3 2, 7, 1, 5, 1, 2⟩

/-- A significance-filtered table whose two candidate groups tie on mean |r|:
both select two rows of mean absolute correlation 17/20. -/
def sdcTie : List SigRow :=
  [⟨5, 1, mkRat 9 10, 0⟩, ⟨6, 1, mkRat 8 10, 0⟩,
   ⟨7, 1, mkRat 1 10, 0⟩, ⟨8, 1, mkRat 1 10, 0⟩,
   ⟨9, 1, mkRat (-9) 10, 0⟩, ⟨10, 1, mkRat (-8) 10, 0⟩,
   ⟨11, 1, mkRat (-1) 10, 0⟩, ⟨12, 1, mkRat (-1) 10, 0⟩]

/-- Days since 2000-01-01 of the first day of each month, 2000-01 … 2001-12
(2000 is a leap year); position 5 is 2000-06-01 and position 6 is 2000-07-01. -/
def monthly2000to2001 : List ℤ :=
  [0, 31, 60, 91, 121, 152, 182, 213, 244, 274, 305, 335,
   366, 397, 425, 456, 486, 517, 547, 578, 609, 639, 670, 700]

/-! ### Helper lemmas -/

/-- `cntOf` agrees with the mathematical floor `⌊·⌋`. -/
theorem cntOf_eq_intFloor (f : ℚ) (g : List SigRow) :
    cntOf f g = ⌊(g.length : ℚ) * f⌋ := by
  rw [cntOf, Rat.floor_def']
  exact Rat.floor_def.symm

/-- Closed-form case analysis of `_pick_top_extremes`. -/
theorem pickTopExtremes_def (sdc : List SigRow) (pk : ℤ) (f : ℚ) :
    pickTopExtremes sdc pk f =
      if 2 ≤ cntOf f (posOf sdc) then
        if 2 ≤ cntOf f (negOf sdc) then
          if absMeanR (selPosOf sdc pk f) < absMeanR (selNegOf sdc pk f) then
            some (selNegOf sdc pk f, Sign.neg)
          else
            some (selPosOf sdc pk f, Sign.pos)
        else some (selPosOf sdc pk f, Sign.pos)
      else
        if 2 ≤ cntOf f (negOf sdc) then some (selNegOf sdc pk f, Sign.neg)
        else none := by
  by_cases h1 : 2 ≤ cntOf f (posOf sdc) <;>
    by_cases h2 : 2 ≤ cntOf f (negOf sdc) <;>
      simp [pickTopExtremes, h1, h2]

/-- Membership in the positive group. -/
theorem mem_posOf {row : SigRow} {sdc : List SigRow} :
    row ∈ posOf sdc ↔ row ∈ sdc ∧ 0 < row.r := by
  simp [posOf, List.mem_filter]

/-- Membership in the negative group. -/
theorem mem_negOf {row : SigRow} {sdc : List SigRow} :
    row ∈ negOf sdc ↔ row ∈ sdc ∧ row.r < 0 := by
  simp [negOf, List.mem_filter]

/-- `addRelStart` only decorates rows; stripping the decoration recovers them. -/
theorem map_row_addRelStart (pk : ℤ) (rows : List SigRow) :
    (addRelStart pk rows).map SelRow.row = rows := by
  induction rows with
  | nil => rfl
  | cons a t ih => simpa [addRelStart] using ih

theorem length_addRelStart (pk : ℤ) (rows : List SigRow) :
    (addRelStart pk rows).length = rows.length := by
  simp [addRelStart]

/-- Every row of `nlargestByR n rows` is a row of `rows`. -/
theorem mem_of_mem_nlargestByR {a : SigRow} {n : ℕ} {rows : List SigRow}
    (h : a ∈ nlargestByR n rows) : a ∈ rows :=
  (List.perm_insertionSort rGE rows).mem_iff.mp
    ((List.take_sublist n (rows.insertionSort rGE)).mem h)

/-- Every row of `nsmallestByR n rows` is a row of `rows`. -/
theorem mem_of_mem_nsmallestByR {a : SigRow} {n : ℕ} {rows : List SigRow}
    (h : a ∈ nsmallestByR n rows) : a ∈ rows :=
  (List.perm_insertionSort rLE rows).mem_iff.mp
    ((List.take_sublist n (rows.insertionSort rLE)).mem h)

theorem length_nlargestByR (n : ℕ) (rows : List SigRow) (h : n ≤ rows.length) :
    (nlargestByR n rows).length = n := by
  simp [nlargestByR, List.length_take, List.length_insertionSort, h]

theorem length_nsmallestByR (n : ℕ) (rows : List SigRow) (h : n ≤ rows.length) :
    (nsmallestByR n rows).length = n := by
  simp [nsmallestByR, List.length_take, List.length_insertionSort, h]

/-- `nlargestByR n rows` together with the dropped tail is a permutation of
`rows`, and every kept row's `r` dominates every dropped row's `r`. -/
theorem nlargestByR_split (n : ℕ) (rows : List SigRow) :
    ∃ rest, (nlargestByR n rows ++ rest).Perm rows ∧
      ∀ a ∈ nlargestByR n rows, ∀ b ∈ rest, b.r ≤ a.r := by
  refine ⟨(rows.insertionSort rGE).drop n, ?_, ?_⟩
  · rw [nlargestByR, List.take_append_drop]
    exact List.perm_insertionSort rGE rows
  · intro a ha b hb
    have hs : List.Pairwise rGE (rows.insertionSort rGE) :=
      List.sorted_insertionSort rGE rows
    rw [← List.take_append_drop n (rows.insertionSort rGE)] at hs
    exact (List.pairwise_append.mp hs).2.2 a ha b hb

/-- `nsmallestByR n rows` together with the dropped tail is a permutation of
`rows`, and every kept row's `r` is below every dropped row's `r`. -/
theorem nsmallestByR_split (n : ℕ) (rows : List SigRow) :
    ∃ rest, (nsmallestByR n rows ++ rest).Perm rows ∧
      ∀ a ∈ nsmallestByR n rows, ∀ b ∈ rest, a.r ≤ b.r := by
  refine ⟨(rows.insertionSort rLE).drop n, ?_, ?_⟩
  · rw [nsmallestByR, List.take_append_drop]
    exact List.perm_insertionSort rLE rows
  · intro a ha b hb
    have hs : List.Pairwise rLE (rows.insertionSort rLE) :=
      List.sorted_insertionSort rLE rows
    rw [← List.take_append_drop n (rows.insertionSort rLE)] at hs
    exact (List.pairwise_append.mp hs).2.2 a ha b hb

/-- The group count never exceeds the group size when `top_fraction ≤ 1`. -/
theorem cntOf_le_length (f : ℚ) (g : List SigRow) (hf : f ≤ 1) :
    cntOf f g ≤ (g.length : ℤ) := by
  rw [cntOf_eq_intFloor]
  calc ⌊(g.length : ℚ) * f⌋ ≤ ⌊(g.length : ℚ)⌋ :=
        Int.floor_le_floor (mul_le_of_le_one_right (Nat.cast_nonneg _) hf)
    _ = (g.length : ℤ) := Int.floor_natCast _

theorem cntOf_toNat_le_length (f : ℚ) (g : List SigRow) (hf : f ≤ 1) :
    (cntOf f g).toNat ≤ g.length :=
  Int.toNat_le.mpr (cntOf_le_length f g hf)

/-- The sizes of the returned candidates, assuming a valid `top_fraction`. -/
theorem length_selPosOf (sdc : List SigRow) (pk : ℤ) (f : ℚ) (hf : f ≤ 1) :
    (selPosOf sdc pk f).length = (cntOf f (posOf sdc)).toNat := by
  rw [selPosOf, length_addRelStart,
    length_nlargestByR _ _ (cntOf_toNat_le_length f (posOf sdc) hf)]

theorem length_selNegOf (sdc : List SigRow) (pk : ℤ) (f : ℚ) (hf : f ≤ 1) :
    (selNegOf sdc pk f).length = (cntOf f (negOf sdc)).toNat := by
  rw [selNegOf, length_addRelStart,
    length_nsmallestByR _ _ (cntOf_toNat_le_length f (negOf sdc) hf)]

theorem meanQ_nonneg (l : List ℚ) (h : ∀ x ∈ l, 0 ≤ x) : 0 ≤ meanQ l :=
  div_nonneg (List.sum_nonneg h) (Nat.cast_nonneg _)

theorem sum_nonposQ (l : List ℚ) (h : ∀ x ∈ l, x ≤ 0) : l.sum ≤ 0 := by
  induction l with
  | nil => simp
  | cons a t ih =>
    have ha := h a (List.mem_cons_self a t)
    have ht := ih fun x hx => h x (List.mem_cons_of_mem a hx)
    simp only [List.sum_cons]
    linarith

theorem sum_map_negQ (l : List ℚ) : (l.map fun x => -x).sum = -l.sum := by
  induction l with
  | nil => simp
  | cons a t ih => simp [ih]; ring

/-- A row mapped into a selected group keeps its underlying row. -/
theorem row_mem_of_mem_addRelStart {e : SelRow} {pk : ℤ} {rows : List SigRow}
    (h : e ∈ addRelStart pk rows) : e.row ∈ rows := by
  rw [addRelStart, List.mem_map] at h
  obtain ⟨a, ha, he⟩ := h
  rw [← he]
  exact ha

/-- Every row selected into the positive candidate has `r > 0`. -/
theorem selPosOf_pos {sdc : List SigRow} {pk : ℤ} {f : ℚ} :
    ∀ e ∈ selPosOf sdc pk f, 0 < e.row.r := by
  intro e he
  have h1 : e.row ∈ nlargestByR (cntOf f (posOf sdc)).toNat (posOf sdc) :=
    row_mem_of_mem_addRelStart he
  exact (mem_posOf.mp (mem_of_mem_nlargestByR h1)).2

/-- Every row selected into the negative candidate has `r < 0`. -/
theorem selNegOf_neg {sdc : List SigRow} {pk : ℤ} {f : ℚ} :
    ∀ e ∈ selNegOf sdc pk f, e.row.r < 0 := by
  intro e he
  have h1 : e.row ∈ nsmallestByR (cntOf f (negOf sdc)).toNat (negOf sdc) :=
    row_mem_of_mem_addRelStart he
  exact (mem_negOf.mp (mem_of_mem_nsmallestByR h1)).2

/-- On a group of positive-`r` rows, `abs(mean r)` equals `mean |r|`. -/
theorem absMeanR_eq_meanAbs_of_pos {sel : List SelRow}
    (h : ∀ e ∈ sel, 0 < e.row.r) : absMeanR sel = meanAbsRSel sel := by
  unfold absMeanR meanAbsRSel
  have hmap : (sel.map fun e => |e.row.r|) = sel.map fun e => e.row.r :=
    List.map_congr_left fun e he => abs_of_pos (h e he)
  rw [hmap]
  refine abs_of_nonneg (meanQ_nonneg _ ?_)
  intro x hx
  rw [List.mem_map] at hx
  obtain ⟨e, he, hxe⟩ := hx
  rw [← hxe]
  exact le_of_lt (h e he)

/-- On a group of negative-`r` rows, `abs(mean r)` equals `mean |r|`. -/
theorem absMeanR_eq_meanAbs_of_neg {sel : List SelRow}
    (h : ∀ e ∈ sel, e.row.r < 0) : absMeanR sel = meanAbsRSel sel := by
  unfold absMeanR meanAbsRSel
  have hmap : (sel.map fun e => |e.row.r|) = (sel.map fun e => e.row.r).map fun x => -x := by
    rw [List.map_map]
    exact List.map_congr_left fun e he => abs_of_neg (h e he)
  rw [hmap]
  have hsum : ((sel.map fun e => e.row.r).map fun x => -x).sum = -(sel.map fun e => e.row.r).sum :=
    sum_map_negQ _
  have hmean : meanQ ((sel.map fun e => e.row.r).map fun x => -x) =
      -meanQ (sel.map fun e => e.row.r) := by
    unfold meanQ
    rw [hsum, List.length_map, neg_div]
  rw [hmean]
  refine abs_of_nonpos ?_
  unfold meanQ
  refine div_nonpos_iff.mpr (Or.inr ⟨sum_nonposQ _ ?_, Nat.cast_nonneg _⟩)
  intro x hx
  rw [List.mem_map] at hx
  obtain ⟨e, he, hxe⟩ := hx
  rw [← hxe]
  exact le_of_lt (h e he)

/-- Inversion: what a successful `_pick_top_extremes` must have returned. -/
theorem pickTopExtremes_some_cases {sdc : List SigRow} {pk : ℤ} {f : ℚ}
    {sel : List SelRow} {sign : Sign}
    (h : pickTopExtremes sdc pk f = some (sel, sign)) :
    (sign = Sign.pos ∧ sel = selPosOf sdc pk f ∧ 2 ≤ cntOf f (posOf sdc)) ∨
    (sign = Sign.neg ∧ sel = selNegOf sdc pk f ∧ 2 ≤ cntOf f (negOf sdc)) := by
  rw [pickTopExtremes_def] at h
  split_ifs at h with h1 h2 h3 h4
  · simp only [Option.some.injEq, Prod.mk.injEq] at h
    obtain ⟨rfl, rfl⟩ := h
    exact Or.inr ⟨rfl, rfl, h2⟩
  · simp only [Option.some.injEq, Prod.mk.injEq] at h
    obtain ⟨rfl, rfl⟩ := h
    exact Or.inl ⟨rfl, rfl, h1⟩
  · simp only [Option.some.injEq, Prod.mk.injEq] at h
    obtain ⟨rfl, rfl⟩ := h
    exact Or.inl ⟨rfl, rfl, h1⟩
  · simp only [Option.some.injEq, Prod.mk.injEq] at h
    obtain ⟨rfl, rfl⟩ := h
    exact Or.inr ⟨rfl, rfl, h4⟩

/-- Inversion of a produced gridpoint summary. -/
theorem summarizeGridpoint_some {engine : EngineFn} {dv lv : List RVal}
    {cfg : SDCMapConfig} {pk : ℤ} {s : Summary}
    (h : summarizeGridpoint engine dv lv cfg pk = some s) :
    ∃ sel sign,
      pickTopExtremes
        (significanceFilter cfg.alpha
          (engine dv lv cfg.fragment_size cfg.n_permutations cfg.two_tailed
            cfg.min_lag cfg.max_lag)) pk cfg.top_fraction = some (sel, sign) ∧
      s = mkSummary sel sign := by
  unfold summarizeGridpoint at h
  split at h
  · exact absurd h (by simp)
  split at h
  · exact absurd h (by simp)
  split at h
  · exact absurd h (by simp)
  split at h
  · exact absurd h (by simp)
  split at h
  · exact absurd h (by simp)
  next sel sign heq =>
    exact ⟨sel, sign, heq, (Option.some.inj h).symm⟩

/-- A gridpoint failing the Validity Filter is skipped no matter what the
correlation engine would return. -/
theorem summarizeGridpoint_none_of_invalid {cfg : SDCMapConfig} {dv lv : List RVal}
    (h : finiteCount lv < cfg.fragment_size + 3 ∨ nanstdIsZero lv = true ∨
      anyNan lv = true ∨ anyNan dv = true) :
    ∀ (engine : EngineFn) (pk : ℤ), summarizeGridpoint engine dv lv cfg pk = none := by
  intro engine pk
  unfold summarizeGridpoint
  rcases h with h | h | h | h
  · simp [h]
  · simp [h]
  · simp [h]
  · simp [h]

/-- What a successful `compute_sdcmap_layers` run is. -/
theorem compute_layers_ok_iff {engine : EngineFn} {driver : Driver}
    {field : MappedField} {cfg : SDCMapConfig} {sst : Option MappedField}
    {L : ℕ → ℕ → LayerCell} :
    compute_sdcmap_layers engine driver (some field) (some cfg) sst = Except.ok L ↔
      ((field.time.map (reindexOne driver)).any RVal.isNan = false ∧
       L = fun i j =>
         match summarizeGridpoint engine (field.time.map (reindexOne driver))
             (field.data i j) cfg ((argminAbs cfg.peak_date field.time : ℕ) : ℤ) with
         | none => nanCell
         | some s => cellOfSummary s) := by
  unfold compute_sdcmap_layers
  by_cases hany : (field.time.map (reindexOne driver)).any RVal.isNan
  · simp [hany]
  · simp only [Bool.not_eq_true] at hany
    simp [hany, eq_comm]

/-- Full specification of `argminAbsPair`: it returns the first position of
the minimal absolute difference, together with that minimum. -/
theorem argminAbsPair_spec (peak : ℤ) :
    ∀ l : List ℤ, l ≠ [] →
      ∃ i v, argminAbsPair peak l = some (i, v) ∧
        ∃ hi : i < l.length,
          v = |l.get ⟨i, hi⟩ - peak| ∧
          (∀ j, ∀ hj : j < l.length, v ≤ |l.get ⟨j, hj⟩ - peak|) ∧
          (∀ j, ∀ hj : j < l.length, j < i → v < |l.get ⟨j, hj⟩ - peak|) := by
  intro l
  induction l with
  | nil => intro h; exact absurd rfl h
  | cons x xs ih =>
    intro _
    by_cases hxs : xs = []
    · subst hxs
      refine ⟨0, |x - peak|, rfl, Nat.zero_lt_one, rfl, ?_, ?_⟩
      · intro j hj
        cases j with
        | zero => exact le_refl _
        | succ n =>
          rw [List.length_singleton] at hj
          omega
      · intro j hj hji
        exact absurd hji (by omega)
    · obtain ⟨i, v, heq, hi, hv, hmin, hstrict⟩ := ih hxs
      by_cases hle : |x - peak| ≤ v
      · refine ⟨0, |x - peak|, ?_, Nat.succ_pos _, rfl, ?_, ?_⟩
        · simp [argminAbsPair, heq, hle]
        · intro j hj
          cases j with
          | zero => exact le_refl _
          | succ n =>
            have hn : n < xs.length := by simpa using hj
            calc |x - peak| ≤ v := hle
              _ ≤ |xs.get ⟨n, hn⟩ - peak| := hmin n hn
        · intro j hj hji
          exact absurd hji (by omega)
      · push_neg at hle
        refine ⟨i + 1, v, ?_, Nat.succ_lt_succ hi, ?_, ?_, ?_⟩
        · simp [argminAbsPair, heq, not_le.mpr hle]
        · simpa using hv
        · intro j hj
          cases j with
          | zero => exact le_of_lt hle
          | succ n =>
            have hn : n < xs.length := by simpa using hj
            simpa using hmin n hn
        · intro j hj hji
          cases j with
          | zero => exact hle
          | succ n =>
            have hn : n < xs.length := by simpa using hj
            have hni : n < i := by omega
            simpa using hstrict n hn hni

/-- The two-pass Significance Filter keeps exactly the rows whose `r` and
`p_value` are both finite and whose `p_value` is at most `alpha`. -/
theorem significanceFilter_eq (alpha : ℚ) (sdc : List EngineRow) :
    significanceFilter alpha sdc = sdc.filterMap fun row =>
      match row.r, row.p_value with
      | RVal.fin r, RVal.fin p =>
        if p ≤ alpha then some (SigRow.mk row.start_1 row.lag r p) else none
      | _, _ => none := by
  induction sdc with
  | nil => rfl
  | cons a t ih =>
    simp only [significanceFilter, List.filterMap_cons] at ih ⊢
    cases ha : a.r with
    | nan => simpa [ha] using ih
    | fin r =>
      cases hp : a.p_value with
      | nan => simpa [ha, hp] using ih
      | fin p =>
        by_cases hpa : p ≤ alpha
        · simpa [ha, hp, hpa, List.filter_cons] using ih
        · simpa [ha, hp, hpa, List.filter_cons] using ih

/-! ### Claim theorems -/

/-- C8: For every produced gridpoint summary, `timing_combo` equals
`driver_rel_time_mean + lag_mean` exactly. -/
theorem C8_timing_combo_additive (engine : EngineFn) (dv lv : List RVal)
    (cfg : SDCMapConfig) (pk : ℤ) (s : Summary)
    (h : summarizeGridpoint engine dv lv cfg pk = some s) :
    s.timing_combo = s.driver_rel_time_mean + s.lag_mean := by
  obtain ⟨sel, sign, _, rfl⟩ := summarizeGridpoint_some h
  rfl

/-- Closed witness for C8 at the concrete witness gridpoint. -/
theorem C8_witness :
    summary0.timing_combo = summary0.driver_rel_time_mean + summary0.lag_mean :=
  C8_timing_combo_additive engine0 dv0 lv0 cfg0 0 summary0 (by decide)

/-- C9: Calling `compute_sdcmap_layers` without a field argument (neither
`mapped_field` nor the `sst_anom` alias) or without a config raises a
`ValueError` immediately, before any alignment or gridpoint work (the error is
produced for every driver, engine and remaining-argument combination). -/
theorem C9_missing_arguments :
    ∀ (engine : EngineFn) (driver : Driver) (cfgO : Option SDCMapConfig)
      (field : MappedField) (sstO : Option MappedField),
      compute_sdcmap_layers engine driver none cfgO none =
        Except.error "`mapped_field` must be provided." ∧
      compute_sdcmap_layers engine driver (some field) none sstO =
        Except.error "`config` must be provided." ∧
      compute_sdcmap_layers engine driver none none (some field) =
        Except.error "`config` must be provided." := by
  intro engine driver cfgO field sstO
  refine ⟨?_, rfl, rfl⟩
  cases cfgO <;> rfl

/-- C3: A gridpoint with fewer than `fragment_size + 3` finite values, or
zero standard deviation of its finite values, or any NaN in the local or the
driver series, is skipped without consulting the correlation engine, and its
cell of every output layer stays NaN. -/
theorem C3_validity_filter_skips (cfg : SDCMapConfig) (driver_vals local_vals : List RVal)
    (h : finiteCount local_vals < cfg.fragment_size + 3 ∨
      nanstdIsZero local_vals = true ∨
      anyNan local_vals = true ∨ anyNan driver_vals = true) :
    (∀ (engine : EngineFn) (pk : ℤ),
      summarizeGridpoint engine driver_vals local_vals cfg pk = none) ∧
    (∀ (engine : EngineFn) (driver : Driver) (field : MappedField)
      (sst : Option MappedField) (L : ℕ → ℕ → LayerCell) (i j : ℕ),
      compute_sdcmap_layers engine driver (some field) (some cfg) sst = Except.ok L →
      field.data i j = local_vals →
      field.time.map (reindexOne driver) = driver_vals →
      L i j = nanCell) := by
  refine ⟨summarizeGridpoint_none_of_invalid h, ?_⟩
  intro engine driver field sst L i j hok hdata htime
  obtain ⟨hany, rfl⟩ := compute_layers_ok_iff.mp hok
  have hnone := summarizeGridpoint_none_of_invalid h engine
    ((argminAbs cfg.peak_date field.time : ℕ) : ℤ)
  simp [hdata, htime, hnone]

/-- Closed witness for C3: a local series with a NaN (only three finite
values) is skipped for every engine. -/
theorem C3_witness : summarizeGridpoint engine0 dv0 lvNaN cfg0 0 = none :=
  (C3_validity_filter_skips cfg0 dv0 lvNaN (by decide)).1 engine0 0

/-- C4: The Significance Filter keeps exactly the engine rows whose `r` and
`p_value` are both finite with `p_value ≤ alpha`; an empty result makes the
gridpoint summary absent (its cell of every layer stays NaN) and raises no
error. -/
theorem C4_significance_filter :
    (∀ (alpha : ℚ) (sdc : List EngineRow),
      significanceFilter alpha sdc = sdc.filterMap fun row =>
        match row.r, row.p_value with
        | RVal.fin r, RVal.fin p =>
          if p ≤ alpha then some (SigRow.mk row.start_1 row.lag r p) else none
        | _, _ => none) ∧
    (∀ (engine : EngineFn) (dv lv : List RVal) (cfg : SDCMapConfig) (pk : ℤ),
      significanceFilter cfg.alpha
        (engine dv lv cfg.fragment_size cfg.n_permutations cfg.two_tailed
          cfg.min_lag cfg.max_lag) = [] →
      summarizeGridpoint engine dv lv cfg pk = none) ∧
    (∀ (engine : EngineFn) (driver : Driver) (field : MappedField)
      (cfg : SDCMapConfig) (sst : Option MappedField),
      (field.time.map (reindexOne driver)).any RVal.isNan = false →
      ∃ L, compute_sdcmap_layers engine driver (some field) (some cfg) sst =
          Except.ok L ∧
        ∀ i j, significanceFilter cfg.alpha
            (engine (field.time.map (reindexOne driver)) (field.data i j)
              cfg.fragment_size cfg.n_permutations cfg.two_tailed
              cfg.min_lag cfg.max_lag) = [] →
          L i j = nanCell) := by
  refine ⟨significanceFilter_eq, ?_, ?_⟩
  · intro engine dv lv cfg pk hemp
    simp [summarizeGridpoint, hemp]
  · intro engine driver field cfg sst hany
    refine ⟨_, compute_layers_ok_iff.mpr ⟨hany, rfl⟩, ?_⟩
    intro i j hemp
    have hnone : summarizeGridpoint engine (field.time.map (reindexOne driver))
        (field.data i j) cfg ((argminAbs cfg.peak_date field.time : ℕ) : ℤ) = none := by
      simp [summarizeGridpoint, hemp]
    simp [hnone]

/-- Closed witness for C4: the concrete field/driver pair aligns, so the run
returns a full layer grid without error. -/
theorem C4_witness :
    ∃ L, compute_sdcmap_layers engine0 driver0 (some field0) (some cfg0) none =
        Except.ok L ∧
      ∀ i j, significanceFilter cfg0.alpha
          (engine0 (field0.time.map (reindexOne driver0)) (field0.data i j)
            cfg0.fragment_size cfg0.n_permutations cfg0.two_tailed
            cfg0.min_lag cfg0.max_lag) = [] →
        L i j = nanCell :=
  C4_significance_filter.2.2 engine0 driver0 field0 cfg0 none (by decide)

/-- C5: Whenever a gridpoint summary is present, `n_selected` is at least 2
and equals the number of rows the selector chose for the winning sign group,
which is the floor of that group's size times `top_fraction`. -/
theorem C5_n_selected_invariant (engine : EngineFn) (dv lv : List RVal)
    (cfg : SDCMapConfig) (pk : ℤ) (s : Summary) (hf : cfg.top_fraction ≤ 1)
    (h : summarizeGridpoint engine dv lv cfg pk = some s) :
    2 ≤ s.n_selected ∧
    ∃ sel sign,
      pickTopExtremes
        (significanceFilter cfg.alpha
          (engine dv lv cfg.fragment_size cfg.n_permutations cfg.two_tailed
            cfg.min_lag cfg.max_lag)) pk cfg.top_fraction = some (sel, sign) ∧
      s.n_selected = (sel.length : ℚ) ∧
      (sign = Sign.pos → (sel.length : ℤ) =
        cntOf cfg.top_fraction (posOf (significanceFilter cfg.alpha
          (engine dv lv cfg.fragment_size cfg.n_permutations cfg.two_tailed
            cfg.min_lag cfg.max_lag)))) ∧
      (sign = Sign.neg → (sel.length : ℤ) =
        cntOf cfg.top_fraction (negOf (significanceFilter cfg.alpha
          (engine dv lv cfg.fragment_size cfg.n_permutations cfg.two_tailed
            cfg.min_lag cfg.max_lag)))) := by
  set T := significanceFilter cfg.alpha
    (engine dv lv cfg.fragment_size cfg.n_permutations cfg.two_tailed
      cfg.min_lag cfg.max_lag) with hT
  obtain ⟨sel, sign, hpick, rfl⟩ := summarizeGridpoint_some h
  have hn : (mkSummary sel sign).n_selected = (sel.length : ℚ) := rfl
  rcases pickTopExtremes_some_cases hpick with ⟨hs, hsel, hcnt⟩ | ⟨hs, hsel, hcnt⟩
  · subst hs
    subst hsel
    have hlen : (selPosOf T pk cfg.top_fraction).length =
        (cntOf cfg.top_fraction (posOf T)).toNat := length_selPosOf T pk _ hf
    have hcast : (((cntOf cfg.top_fraction (posOf T)).toNat : ℤ)) =
        cntOf cfg.top_fraction (posOf T) :=
      Int.toNat_of_nonneg (le_trans (by omega) hcnt)
    constructor
    · rw [hn, hlen]
      have h2 : (2 : ℤ) ≤ ((cntOf cfg.top_fraction (posOf T)).toNat : ℤ) := by
        rw [hcast]; exact hcnt
      exact_mod_cast h2
    · exact ⟨_, Sign.pos, hpick, hn, fun _ => by rw [hlen]; exact hcast,
        fun hc => absurd hc (by decide)⟩
  · subst hs
    subst hsel
    have hlen : (selNegOf T pk cfg.top_fraction).length =
        (cntOf cfg.top_fraction (negOf T)).toNat := length_selNegOf T pk _ hf
    have hcast : (((cntOf cfg.top_fraction (negOf T)).toNat : ℤ)) =
        cntOf cfg.top_fraction (negOf T) :=
      Int.toNat_of_nonneg (le_trans (by omega) hcnt)
    constructor
    · rw [hn, hlen]
      have h2 : (2 : ℤ) ≤ ((cntOf cfg.top_fraction (negOf T)).toNat : ℤ) := by
        rw [hcast]; exact hcnt
      exact_mod_cast h2
    · exact ⟨_, Sign.neg, hpick, hn, fun hc => absurd hc (by decide),
        fun _ => by rw [hlen]; exact hcast⟩

/-- Closed witness for C5 at the concrete witness gridpoint. -/
theorem C5_witness :
    2 ≤ summary0.n_selected ∧
    ∃ sel sign,
      pickTopExtremes
        (significanceFilter cfg0.alpha
          (engine0 dv0 lv0 cfg0.fragment_size cfg0.n_permutations cfg0.two_tailed
            cfg0.min_lag cfg0.max_lag)) 0 cfg0.top_fraction = some (sel, sign) ∧
      summary0.n_selected = (sel.length : ℚ) ∧
      (sign = Sign.pos → (sel.length : ℤ) =
        cntOf cfg0.top_fraction (posOf (significanceFilter cfg0.alpha
          (engine0 dv0 lv0 cfg0.fragment_size cfg0.n_permutations cfg0.two_tailed
            cfg0.min_lag cfg0.max_lag)))) ∧
      (sign = Sign.neg → (sel.length : ℤ) =
        cntOf cfg0.top_fraction (negOf (significanceFilter cfg0.alpha
          (engine0 dv0 lv0 cfg0.fragment_size cfg0.n_permutations cfg0.two_tailed
            cfg0.min_lag cfg0.max_lag)))) :=
  C5_n_selected_invariant engine0 dv0 lv0 cfg0 0 summary0 (by decide) (by decide)

theorem isNan_eq_false_of_isFinite {v : RVal} (h : v.isFinite = true) :
    v.isNan = false := by
  cases v
  · simp [RVal.isFinite] at h
  · rfl

/-- C6: A driver that is missing a value at any field timestamp makes
`compute_sdcmap_layers` fail with the alignment error for every engine and
config (so before any gridpoint work, with no partial output), and makes
`align_driver_to_field` fail likewise; a driver covering every field
timestamp aligns successfully, the aligned values standing in the field's
exact timestamp order, and the layer run returns a grid. -/
theorem C6_driver_alignment :
    (∀ (driver : Driver) (field : MappedField),
      (∃ t ∈ field.time, (reindexOne driver t).isNan = true) →
      (∀ (engine : EngineFn) (cfg : SDCMapConfig) (sst : Option MappedField),
        compute_sdcmap_layers engine driver (some field) (some cfg) sst =
          Except.error "Driver and mapped-variable time coverage do not align.") ∧
      align_driver_to_field driver field.time =
        Except.error "Driver and mapped-variable time indexes do not align.") ∧
    (∀ (driver : Driver) (field : MappedField),
      (∀ t ∈ field.time, (reindexOne driver t).isFinite = true) →
      align_driver_to_field driver field.time =
        Except.ok (field.time.map (reindexOne driver)) ∧
      (∀ (engine : EngineFn) (cfg : SDCMapConfig) (sst : Option MappedField),
        ∃ L, compute_sdcmap_layers engine driver (some field) (some cfg) sst =
          Except.ok L)) := by
  constructor
  · intro driver field hmiss
    obtain ⟨t, ht, hnan⟩ := hmiss
    have hany : (field.time.map (reindexOne driver)).any RVal.isNan = true := by
      rw [List.any_eq_true]
      exact ⟨reindexOne driver t, List.mem_map_of_mem _ ht, hnan⟩
    constructor
    · intro engine cfg sst
      simp [compute_sdcmap_layers, hany]
    · simp [align_driver_to_field, hany]
  · intro driver field hcov
    have hany : (field.time.map (reindexOne driver)).any RVal.isNan = false := by
      rw [List.any_eq_false]
      intro v hv
      rw [List.mem_map] at hv
      obtain ⟨t, ht, hvt⟩ := hv
      rw [← hvt]
      simp [isNan_eq_false_of_isFinite (hcov t ht)]
    refine ⟨by simp [align_driver_to_field, hany], ?_⟩
    intro engine cfg sst
    exact ⟨_, compute_layers_ok_iff.mpr ⟨hany, rfl⟩⟩

/-- Closed witness for C6: a driver with a NaN at a field timestamp aborts
the run with the alignment error; a fully covering driver aligns in field
order. -/
theorem C6_witness :
    compute_sdcmap_layers engine0 driverBad (some field0) (some cfg0) none =
      Except.error "Driver and mapped-variable time coverage do not align." ∧
    align_driver_to_field driver0 field0.time =
      Except.ok (field0.time.map (reindexOne driver0)) :=
  ⟨(C6_driver_alignment.1 driverBad field0 ⟨0, by decide, by decide⟩).1 engine0 cfg0 none,
   (C6_driver_alignment.2 driver0 field0 (by decide)).1⟩

/-- C7: The peak-reference index resolves to the position in the calendar
whose timestamp is closest to the configured peak timestamp (earliest
position winning ties); for monthly timestamps 2000-01 … 2001-12 and peak
2000-06-15 (day 166), it resolves to position 5 (2000-06-01, day 152), not
position 6 (2000-07-01, day 182). -/
theorem C7_peak_reference_resolution :
    (∀ (calendar : List ℤ) (peak : ℤ), calendar ≠ [] →
      ∃ hi : argminAbs peak calendar < calendar.length,
        (∀ j, ∀ hj : j < calendar.length,
          |calendar.get ⟨argminAbs peak calendar, hi⟩ - peak| ≤
            |calendar.get ⟨j, hj⟩ - peak|) ∧
        (∀ j, ∀ hj : j < calendar.length, j < argminAbs peak calendar →
          |calendar.get ⟨argminAbs peak calendar, hi⟩ - peak| <
            |calendar.get ⟨j, hj⟩ - peak|)) ∧
    argminAbs 166 monthly2000to2001 = 5 ∧
    monthly2000to2001[5]? = some 152 ∧
    monthly2000to2001[6]? = some 182 := by
  refine ⟨?_, by decide, by decide, by decide⟩
  intro calendar peak hne
  obtain ⟨i, v, heq, hi, hv, hmin, hstrict⟩ := argminAbsPair_spec peak calendar hne
  have hidx : argminAbs peak calendar = i := by simp [argminAbs, heq]
  rw [hidx]
  refine ⟨hi, ?_, ?_⟩
  · intro j hj
    rw [← hv]
    exact hmin j hj
  · intro j hj hji
    rw [← hv]
    exact hstrict j hj hji

/-- Closed witness for C7 on the concrete 24-month calendar. -/
theorem C7_witness :
    ∃ hi : argminAbs 166 monthly2000to2001 < monthly2000to2001.length,
      (∀ j, ∀ hj : j < monthly2000to2001.length,
        |monthly2000to2001.get ⟨argminAbs 166 monthly2000to2001, hi⟩ - 166| ≤
          |monthly2000to2001.get ⟨j, hj⟩ - 166|) ∧
      (∀ j, ∀ hj : j < monthly2000to2001.length, j < argminAbs 166 monthly2000to2001 →
        |monthly2000to2001.get ⟨argminAbs 166 monthly2000to2001, hi⟩ - 166| <
          |monthly2000to2001.get ⟨j, hj⟩ - 166|) :=
  C7_peak_reference_resolution.1 monthly2000to2001 166 (by decide)

/-- C1: The selector partitions the significance-filtered table into a
positive group (r > 0) and a negative group (r < 0), excluding r = 0 rows;
each group's count is floor(group size × top_fraction); a group qualifies
only with count ≥ 2, in which case exactly count rows are selected — the
count largest-r rows for the positive group, the count smallest-r rows for
the negative group; if neither group qualifies nothing is selected. -/
theorem C1_top_extreme_selection (sdc : List SigRow) (pk : ℤ) (f : ℚ) (hf : f ≤ 1) :
    (∀ row ∈ posOf sdc, row ∈ sdc ∧ 0 < row.r) ∧
    (∀ row ∈ negOf sdc, row ∈ sdc ∧ row.r < 0) ∧
    (∀ row ∈ sdc, 0 < row.r → row ∈ posOf sdc) ∧
    (∀ row ∈ sdc, row.r < 0 → row ∈ negOf sdc) ∧
    (∀ row ∈ sdc, row.r = 0 → row ∉ posOf sdc ∧ row ∉ negOf sdc) ∧
    cntOf f (posOf sdc) = ⌊((posOf sdc).length : ℚ) * f⌋ ∧
    cntOf f (negOf sdc) = ⌊((negOf sdc).length : ℚ) * f⌋ ∧
    (pickTopExtremes sdc pk f = none ↔
      cntOf f (posOf sdc) < 2 ∧ cntOf f (negOf sdc) < 2) ∧
    (∀ sel, pickTopExtremes sdc pk f = some (sel, Sign.pos) →
      2 ≤ cntOf f (posOf sdc) ∧ (sel.length : ℤ) = cntOf f (posOf sdc) ∧
      ∃ rest, (sel.map SelRow.row ++ rest).Perm (posOf sdc) ∧
        ∀ a ∈ sel.map SelRow.row, ∀ b ∈ rest, b.r ≤ a.r) ∧
    (∀ sel, pickTopExtremes sdc pk f = some (sel, Sign.neg) →
      2 ≤ cntOf f (negOf sdc) ∧ (sel.length : ℤ) = cntOf f (negOf sdc) ∧
      ∃ rest, (sel.map SelRow.row ++ rest).Perm (negOf sdc) ∧
        ∀ a ∈ sel.map SelRow.row, ∀ b ∈ rest, a.r ≤ b.r) := by
  refine ⟨fun row h => mem_posOf.mp h, fun row h => mem_negOf.mp h,
    fun row h hr => mem_posOf.mpr ⟨h, hr⟩, fun row h hr => mem_negOf.mpr ⟨h, hr⟩,
    fun row h hr =>
      ⟨fun hc => absurd (mem_posOf.mp hc).2 (by rw [hr]; exact lt_irrefl 0),
       fun hc => absurd (mem_negOf.mp hc).2 (by rw [hr]; exact lt_irrefl 0)⟩,
    cntOf_eq_intFloor f _, cntOf_eq_intFloor f _, ?_, ?_, ?_⟩
  · rw [pickTopExtremes_def]
    split_ifs with h1 h2 h3 h4 <;> simp <;> omega
  · intro sel hp
    rcases pickTopExtremes_some_cases hp with ⟨_, rfl, hcnt⟩ | ⟨hs, _, _⟩
    · refine ⟨hcnt, ?_, ?_⟩
      · rw [length_selPosOf sdc pk f hf]
        exact Int.toNat_of_nonneg (le_trans (by omega) hcnt)
      · obtain ⟨rest, hperm, hdom⟩ :=
          nlargestByR_split (cntOf f (posOf sdc)).toNat (posOf sdc)
        refine ⟨rest, ?_, ?_⟩
        · simp only [selPosOf, map_row_addRelStart]
          exact hperm
        · simp only [selPosOf, map_row_addRelStart]
          exact hdom
    · exact absurd hs (by decide)
  · intro sel hp
    rcases pickTopExtremes_some_cases hp with ⟨hs, _, _⟩ | ⟨_, rfl, hcnt⟩
    · exact absurd hs (by decide)
    · refine ⟨hcnt, ?_, ?_⟩
      · rw [length_selNegOf sdc pk f hf]
        exact Int.toNat_of_nonneg (le_trans (by omega) hcnt)
      · obtain ⟨rest, hperm, hdom⟩ :=
          nsmallestByR_split (cntOf f (negOf sdc)).toNat (negOf sdc)
        refine ⟨rest, ?_, ?_⟩
        · simp only [selNegOf, map_row_addRelStart]
          exact hperm
        · simp only [selNegOf, map_row_addRelStart]
          exact hdom

/-- C2: When both sign groups qualify, the selector returns the group with
the larger mean absolute r, and the summary's `dominant_sign` is +1 when the
positive group wins and −1 when the negative group wins — decided by mean
extreme magnitude, not group size. -/
theorem C2_dominant_sign_by_magnitude (sdc : List SigRow) (pk : ℤ) (f : ℚ)
    (hpos : 2 ≤ cntOf f (posOf sdc)) (hneg : 2 ≤ cntOf f (negOf sdc)) :
    (meanAbsRSel (selNegOf sdc pk f) < meanAbsRSel (selPosOf sdc pk f) →
      pickTopExtremes sdc pk f = some (selPosOf sdc pk f, Sign.pos) ∧
      (mkSummary (selPosOf sdc pk f) Sign.pos).dominant_sign = 1) ∧
    (meanAbsRSel (selPosOf sdc pk f) < meanAbsRSel (selNegOf sdc pk f) →
      pickTopExtremes sdc pk f = some (selNegOf sdc pk f, Sign.neg) ∧
      (mkSummary (selNegOf sdc pk f) Sign.neg).dominant_sign = -1) := by
  have hP : absMeanR (selPosOf sdc pk f) = meanAbsRSel (selPosOf sdc pk f) :=
    absMeanR_eq_meanAbs_of_pos selPosOf_pos
  have hN : absMeanR (selNegOf sdc pk f) = meanAbsRSel (selNegOf sdc pk f) :=
    absMeanR_eq_meanAbs_of_neg selNegOf_neg
  constructor
  · intro hlt
    have hnotlt : ¬ absMeanR (selPosOf sdc pk f) < absMeanR (selNegOf sdc pk f) := by
      rw [hP, hN]
      exact not_lt.mpr (le_of_lt hlt)
    refine ⟨?_, by simp [mkSummary]⟩
    rw [pickTopExtremes_def]
    simp [hpos, hneg, hnotlt]
  · intro hlt
    have hlt2 : absMeanR (selPosOf sdc pk f) < absMeanR (selNegOf sdc pk f) := by
      rw [hP, hN]
      exact hlt
    refine ⟨?_, by simp [mkSummary]⟩
    rw [pickTopExtremes_def]
    simp [hpos, hneg, hlt2]

/-- C10: When both groups qualify and their mean absolute r values are
exactly equal, the selector deterministically returns the positive group
(candidates are accumulated positive-then-negative and the `max` keeps the
first on ties), so `dominant_sign` resolves to +1. -/
theorem C10_equal_means_prefer_positive (sdc : List SigRow) (pk : ℤ) (f : ℚ)
    (hpos : 2 ≤ cntOf f (posOf sdc)) (hneg : 2 ≤ cntOf f (negOf sdc))
    (heq : meanAbsRSel (selPosOf sdc pk f) = meanAbsRSel (selNegOf sdc pk f)) :
    pickTopExtremes sdc pk f = some (selPosOf sdc pk f, Sign.pos) ∧
    (mkSummary (selPosOf sdc pk f) Sign.pos).dominant_sign = 1 := by
  have hP : absMeanR (selPosOf sdc pk f) = meanAbsRSel (selPosOf sdc pk f) :=
    absMeanR_eq_meanAbs_of_pos selPosOf_pos
  have hN : absMeanR (selNegOf sdc pk f) = meanAbsRSel (selNegOf sdc pk f) :=
    absMeanR_eq_meanAbs_of_neg selNegOf_neg
  have hnotlt : ¬ absMeanR (selPosOf sdc pk f) < absMeanR (selNegOf sdc pk f) := by
    rw [hP, hN, heq]
    exact lt_irrefl _
  refine ⟨?_, by simp [mkSummary]⟩
  rw [pickTopExtremes_def]
  simp [hpos, hneg, hnotlt]

/-- Closed witness for C1 on the concrete eight-row filtered table. -/
theorem C1_witness :
    (∀ row ∈ posOf sdc0, row ∈ sdc0 ∧ 0 < row.r) ∧
    (∀ row ∈ negOf sdc0, row ∈ sdc0 ∧ row.r < 0) ∧
    (∀ row ∈ sdc0, 0 < row.r → row ∈ posOf sdc0) ∧
    (∀ row ∈ sdc0, row.r < 0 → row ∈ negOf sdc0) ∧
    (∀ row ∈ sdc0, row.r = 0 → row ∉ posOf sdc0 ∧ row ∉ negOf sdc0) ∧
    cntOf (mkRat 1 2) (posOf sdc0) = ⌊((posOf sdc0).length : ℚ) * mkRat 1 2⌋ ∧
    cntOf (mkRat 1 2) (negOf sdc0) = ⌊((negOf sdc0).length : ℚ) * mkRat 1 2⌋ ∧
    (pickTopExtremes sdc0 0 (mkRat 1 2) = none ↔
      cntOf (mkRat 1 2) (posOf sdc0) < 2 ∧ cntOf (mkRat 1 2) (negOf sdc0) < 2) ∧
    (∀ sel, pickTopExtremes sdc0 0 (mkRat 1 2) = some (sel, Sign.pos) →
      2 ≤ cntOf (mkRat 1 2) (posOf sdc0) ∧
      (sel.length : ℤ) = cntOf (mkRat 1 2) (posOf sdc0) ∧
      ∃ rest, (sel.map SelRow.row ++ rest).Perm (posOf sdc0) ∧
        ∀ a ∈ sel.map SelRow.row, ∀ b ∈ rest, b.r ≤ a.r) ∧
    (∀ sel, pickTopExtremes sdc0 0 (mkRat 1 2) = some (sel, Sign.neg) →
      2 ≤ cntOf (mkRat 1 2) (negOf sdc0) ∧
      (sel.length : ℤ) = cntOf (mkRat 1 2) (negOf sdc0) ∧
      ∃ rest, (sel.map SelRow.row ++ rest).Perm (negOf sdc0) ∧
        ∀ a ∈ sel.map SelRow.row, ∀ b ∈ rest, a.r ≤ b.r) :=
  C1_top_extreme_selection sdc0 0 (mkRat 1 2) (by decide)

/-- Closed witness for C2 on the concrete eight-row filtered table (both
groups qualify with count 2). -/
theorem C2_witness :
    (meanAbsRSel (selNegOf sdc0 0 (mkRat 1 2)) < meanAbsRSel (selPosOf sdc0 0 (mkRat 1 2)) →
      pickTopExtremes sdc0 0 (mkRat 1 2) = some (selPosOf sdc0 0 (mkRat 1 2), Sign.pos) ∧
      (mkSummary (selPosOf sdc0 0 (mkRat 1 2)) Sign.pos).dominant_sign = 1) ∧
    (meanAbsRSel (selPosOf sdc0 0 (mkRat 1 2)) < meanAbsRSel (selNegOf sdc0 0 (mkRat 1 2)) →
      pickTopExtremes sdc0 0 (mkRat 1 2) = some (selNegOf sdc0 0 (mkRat 1 2), Sign.neg) ∧
      (mkSummary (selNegOf sdc0 0 (mkRat 1 2)) Sign.neg).dominant_sign = -1) :=
  C2_dominant_sign_by_magnitude sdc0 0 (mkRat 1 2) (by decide) (by decide)

/-- Closed witness for C10 on the tied table `sdcTie` (both groups select
two rows of mean absolute correlation 17/20). -/
theorem C10_witness :
    pickTopExtremes sdcTie 0 (mkRat 1 2) = some (selPosOf sdcTie 0 (mkRat 1 2), Sign.pos) ∧
    (mkSummary (selPosOf sdcTie 0 (mkRat 1 2)) Sign.pos).dominant_sign = 1 :=
  C10_equal_means_prefer_positive sdcTie 0 (mkRat 1 2) (by decide) (by decide) (by decide)
